import Mathlib

/-!
Verification development for the shell-style statement splitter of
src/shell_token.c (function shell_command_param_split and the scanning
macros EAT_BLANK, GET_CHAR, GET_SEPER).

The C code walks a NUL-terminated byte string with a pointer cursor.  The
embedding represents the buffer as a plain list of characters (end of list
standing for the terminating NUL) and a cursor as an offset into that list;
each C scanning macro becomes a function returning how many characters it
consumed, so a pointer position is an offset and pointer arithmetic is
addition.  The `p &&` conjuncts of the macros are non-null pointer tests
that can never fail on the paths the function takes, and `*p` (truth of the
current byte) becomes `offset < buf.length`.  The out-parameters of
shell_command_param_split become one record; the pointer-valued outputs
that the C code may leave NULL become Option offsets, none standing for
NULL.
-/

set_option linter.unusedVariables false

/-- Blank test used by EAT_BLANK (shell_token.c line 83): space or tab. -/
def isBlank (c : Char) : Bool := c == ' ' || c == '\t'

/-- Separator test of GET_SEPER (shell_token.c line 85): the scan stops on
blanks, redirection characters and control-operator characters. -/
def isSeper (c : Char) : Bool :=
  c == ' ' || c == '\t' || c == '>' || c == '<' || c == '|' || c == '&' || c == ';'

/-- EAT_BLANK(p) (shell_token.c line 83): number of characters the macro
consumes from the front of the remaining input (it advances while the
current character is a space or a tab, stopping at end of input). -/
def eatBlankCount : List Char → Nat
  | [] => 0
  | c :: rest => if isBlank c then eatBlankCount rest + 1 else 0

/-- GET_CHAR(p, q) (shell_token.c line 84): number of characters consumed
while seeking character q; stops at q or at end of input. -/
def getCharCount (q : Char) : List Char → Nat
  | [] => 0
  | c :: rest => if c == q then 0 else getCharCount q rest + 1

/-- GET_SEPER(p) (shell_token.c line 85), expressed one character at a time.
The Bool state records whether the scan is inside the inner GET_CHAR(p,'"')
quote scan: outside a quote the loop stops at a separator, consumes a '"'
switching to quote mode (the p++ before GET_CHAR), and consumes any other
character; inside a quote every character is consumed, a '"' switching back
to normal mode (the `if (*p) p++` after GET_CHAR).  Reaching end of input in
quote mode is the unterminated-quote case: GET_CHAR stops at the NUL and the
outer while loop then stops too.  `getSeperCountD` below is the macro
transliterated with its nested loop intact; the two are proved equal in
`getSeperCountD_eq`. -/
def getSeperCountAux : Bool → List Char → Nat
  | _, [] => 0
  | true, c :: rest =>
    if c == '\"' then getSeperCountAux false rest + 1
    else getSeperCountAux true rest + 1
  | false, c :: rest =>
    if isSeper c then 0
    else if c == '\"' then getSeperCountAux true rest + 1
    else getSeperCountAux false rest + 1

/-- Characters consumed by one GET_SEPER(p) scan over the remaining input. -/
def getSeperCount (l : List Char) : Nat := getSeperCountAux false l

/-- GET_SEPER(p) transliterated with the nested GET_CHAR loop kept as in the
source: on a '"' the scan consumes it (p++), runs GET_CHAR(p,'"') over the
rest, consumes the closing '"' when one was found (`if (*p) p++`) and
continues; with no closing quote GET_CHAR has consumed everything and the
outer loop stops at end of input. -/
def getSeperCountD : List Char → Nat
  | [] => 0
  | c :: rest =>
    if isSeper c then 0
    else if c == '\"' then
      let k := getCharCount '\"' rest
      if h : k < rest.length then
        1 + (k + 1) + getSeperCountD (rest.drop (k + 1))
      else
        1 + k
    else 1 + getSeperCountD rest
termination_by l => l.length
decreasing_by
  all_goals simp_wf
  all_goals omega

/-- Position form of EAT_BLANK: the cursor offset after running the macro at
offset i of buf. -/
def blankTo (buf : List Char) (i : Nat) : Nat := i + eatBlankCount (buf.drop i)

/-- Position form of GET_SEPER: the cursor offset after running the macro at
offset i of buf. -/
def seperTo (buf : List Char) (i : Nat) : Nat := i + getSeperCount (buf.drop i)

/-- Redirection operators (enum shell_redir, shell_token.c lines 12-18). -/
inductive shell_redir where
  | SOP_REDIR_NONE
  | SOP_REDIR_OUT_APPEND
  | SOP_REDIR_OUT
  | SOP_REDIR_IN
  | SOP_REDIR_INOUT
deriving Repr, DecidableEq

/-- Control operators (enum shell_operator, shell_token.c lines 21-28). -/
inductive shell_operator where
  | SOP_NONE
  | SOP_AND
  | SOP_OR
  | SOP_BG
  | SOP_PIPE
  | SOP_NEXT
deriving Repr, DecidableEq

/-- The out-parameters of shell_command_param_split gathered into a record,
plus the returned operator and the updated *context cursor.  Offsets stand
for the returned pointers; the outputs the C code can leave NULL
(params_begin/params_end, redir_begin/redir_end) are Options, none standing
for NULL. -/
structure ParsedStatement where
  cmd_begin : Nat
  cmd_end : Nat
  params_begin : Option Nat
  params_end : Option Nat
  sop_redir : shell_redir
  redir_begin : Option Nat
  redir_end : Option Nat
  oper : shell_operator
  context : Nat
deriving Repr, DecidableEq

/-- The parameter continuation loop (shell_token.c lines 113-119):
`while (*cp && *cp == ' ') { EAT_BLANK(cp); GET_SEPER(cp); if (*cp && *cp
== ' ') *params_end = cp; }`.  The cursor is i and pe is the current
*params_end.  The loop advances the cursor by at least one character per
iteration (the entry test saw a space, which EAT_BLANK consumes), so the
explicit fuel buf.length + 1 supplied by the caller is never exhausted;
the fuel only makes the recursion structural. -/
def paramLoop (buf : List Char) : Nat → Nat → Nat → Nat × Nat
  | 0, i, pe => (i, pe)
  | fuel + 1, i, pe =>
    if buf[i]? = some ' ' then
      paramLoop buf fuel (seperTo buf (blankTo buf i))
        (if buf[seperTo buf (blankTo buf i)]? = some ' ' then seperTo buf (blankTo buf i)
         else pe)
    else (i, pe)

/-- The parameter phase (shell_token.c lines 107-121), entered at the
cursor cp = *cmd_end.  Returns (*params_begin, *params_end, cursor). -/
def paramPhase (buf : List Char) (i : Nat) : Option Nat × Option Nat × Nat :=
  if buf[i]? = some ' ' then
    let j := blankTo buf i
    if j < buf.length then
      let r := paramLoop buf (buf.length + 1) (seperTo buf j) (seperTo buf j)
      (some j, some r.2, r.1)
    else (some j, some j, j)
  else (none, none, i)

/-- The redirection-operator switch (shell_token.c lines 122-141): case '>'
upgraded to OUT_APPEND on a second '>', case '<' upgraded to INOUT on a
following '>', default leaving the cursor alone.  Returns (*sop_redir,
cursor). -/
def redirOp (buf : List Char) (i : Nat) : shell_redir × Nat :=
  if buf[i]? = some '>' then
    if buf[i + 1]? = some '>' then (.SOP_REDIR_OUT_APPEND, i + 2)
    else (.SOP_REDIR_OUT, i + 1)
  else if buf[i]? = some '<' then
    if buf[i + 1]? = some '>' then (.SOP_REDIR_INOUT, i + 2)
    else (.SOP_REDIR_IN, i + 1)
  else (.SOP_REDIR_NONE, i)

/-- The redirection-target phase (shell_token.c lines 143-151), run only
when a redirection operator was consumed and the input has not ended.
Returns (*redir_begin, *redir_end, cursor). -/
def redirTarget (buf : List Char) (r : shell_redir) (i : Nat) :
    Option Nat × Option Nat × Nat :=
  if r ≠ .SOP_REDIR_NONE ∧ i < buf.length then
    let j := blankTo buf i
    if j < buf.length then
      let k := seperTo buf j
      (some j, some k, blankTo buf k)
    else (some j, some j, j)
  else (none, none, i)

/-- The control-operator switch (shell_token.c lines 153-176): case '&'
upgraded to AND on a second '&', case '|' upgraded to OR on a second '|',
case ';', default leaving the cursor alone.  Returns (o, cursor). -/
def controlOp (buf : List Char) (i : Nat) : shell_operator × Nat :=
  if buf[i]? = some '&' then
    if buf[i + 1]? = some '&' then (.SOP_AND, i + 2) else (.SOP_BG, i + 1)
  else if buf[i]? = some '|' then
    if buf[i + 1]? = some '|' then (.SOP_OR, i + 2) else (.SOP_PIPE, i + 1)
  else if buf[i]? = some ';' then (.SOP_NEXT, i + 1)
  else (.SOP_NONE, i)

/-- The body of shell_command_param_split for the path where the `if (*cp)`
test at line 104 succeeds, entered with the cursor i1 already past the
leading blanks (line 102): command scan, parameter phase, redirection
switch, redirection target, control-operator switch, in source order. -/
def splitCore (buf : List Char) (i1 : Nat) : ParsedStatement :=
  let i2 := seperTo buf i1
  let p := paramPhase buf i2
  let rop := redirOp buf p.2.2
  let rt := redirTarget buf rop.1 rop.2
  let cop := controlOp buf rt.2.2
  { cmd_begin := i1, cmd_end := i2,
    params_begin := p.1, params_end := p.2.1,
    sop_redir := rop.1, redir_begin := rt.1, redir_end := rt.2.1,
    oper := cop.1, context := cop.2 }

/-- shell_command_param_split (shell_token.c lines 87-182).  The buffer is
buf; i0 is the cursor the call starts from: 0 for the first call of a chain
(input = the buffer) and the previously returned context for the cursor-only
calls (input = NULL, cp = *context).  When the `if (*cp)` test at line 104
fails (empty or all-blank remainder) every phase is skipped and only the
command range is set, to the empty range at the stop position, exactly as
lines 102-103 do before the test. -/
def shell_command_param_split (buf : List Char) (i0 : Nat) : ParsedStatement :=
  if blankTo buf i0 < buf.length then
    splitCore buf (blankTo buf i0)
  else
    { cmd_begin := blankTo buf i0, cmd_end := blankTo buf i0,
      params_begin := none, params_end := none,
      sop_redir := .SOP_REDIR_NONE, redir_begin := none, redir_end := none,
      oper := .SOP_NONE, context := blankTo buf i0 }

/-- The caller-side driving loop of the header comment (shell_token.c lines
56-60): call, handle one statement, pass NULL afterwards, stop once the
returned operator is SOP_NONE.  Fuel bounds the number of calls; the chain
theorems supply enough for their inputs. -/
def drive (buf : List Char) : Nat → Nat → List ParsedStatement
  | 0, _ => []
  | fuel + 1, i =>
    let r := shell_command_param_split buf i
    if r.oper = .SOP_NONE then [r] else r :: drive buf fuel r.context

/-- The text a caller reads back from a token range: buffer[b:e]. -/
def sliceRange (l : List Char) (b e : Nat) : List Char := (l.take e).drop b

/-- Whether the character at offset i (if any) is a separator character. -/
def isSeperAt (buf : List Char) (i : Nat) : Bool :=
  match buf[i]? with
  | none => false
  | some c => isSeper c

/-- params begin with NULL defaulted to the command end: the start offset a
caller would use for the parameter slice.  Used to state the ordering
invariant over ranges that may be NULL. -/
def pbD (st : ParsedStatement) : Nat := st.params_begin.getD st.cmd_end

/-- params end with NULL defaulted to pbD. -/
def peD (st : ParsedStatement) : Nat := st.params_end.getD (pbD st)

/-- redirection-target begin with NULL defaulted to peD. -/
def rbD (st : ParsedStatement) : Nat := st.redir_begin.getD (peD st)

/-- redirection-target end with NULL defaulted to rbD. -/
def reD (st : ParsedStatement) : Nat := st.redir_end.getD (rbD st)

/-! ## Scanner lemmas -/

theorem eatBlankCount_le (l : List Char) : eatBlankCount l ≤ l.length := by
  induction l with
  | nil => simp [eatBlankCount]
  | cons c rest ih =>
    simp only [eatBlankCount, List.length_cons]
    split
    · omega
    · omega

theorem getCharCount_le (q : Char) (l : List Char) : getCharCount q l ≤ l.length := by
  induction l with
  | nil => simp [getCharCount]
  | cons c rest ih =>
    simp only [getCharCount, List.length_cons]
    split
    · omega
    · omega

theorem getSeperCountAux_le (b : Bool) (l : List Char) :
    getSeperCountAux b l ≤ l.length := by
  induction l generalizing b with
  | nil => simp [getSeperCountAux]
  | cons c rest ih =>
    cases b with
    | true =>
      simp only [getSeperCountAux, List.length_cons]
      split
      · have := ih false; omega
      · have := ih true; omega
    | false =>
      simp only [getSeperCountAux, List.length_cons]
      split
      · omega
      · split
        · have := ih true; omega
        · have := ih false; omega

theorem getSeperCount_le (l : List Char) : getSeperCount l ≤ l.length :=
  getSeperCountAux_le false l

/-- EAT_BLANK stops on a non-blank character (or at end of input): the
character at the offset it stops at, when there is one, is neither a space
nor a tab. -/
theorem eatBlankCount_stop (l : List Char) :
    l[eatBlankCount l]? ≠ some ' ' ∧ l[eatBlankCount l]? ≠ some '\t' := by
  induction l with
  | nil => simp
  | cons c rest ih =>
    by_cases hb : isBlank c = true
    · simpa [eatBlankCount, hb] using ih
    · have hc : ¬ (c = ' ' ∨ c = '\t') := by
        simpa [isBlank] using hb
      simp [eatBlankCount, hb]
      constructor
      · intro h
        exact hc (Or.inl h)
      · intro h
        exact hc (Or.inr h)

/-- A GET_SEPER scan consumes nothing exactly when it starts on a separator
character. -/
theorem getSeperCount_eq_zero (c : Char) (rest : List Char) :
    getSeperCount (c :: rest) = 0 ↔ isSeper c = true := by
  by_cases hs : isSeper c = true
  · simp [getSeperCount, getSeperCountAux, hs]
  · have hq : isSeper '\"' = false := by decide
    by_cases hc : c = '\"'
    · subst hc
      simp [getSeperCount, getSeperCountAux, hq]
    · simp [getSeperCount, getSeperCountAux, hs, hc]

/-! ## Position-level lemmas -/

theorem le_blankTo (buf : List Char) (i : Nat) : i ≤ blankTo buf i :=
  Nat.le_add_right i _

theorem blankTo_le (buf : List Char) (i : Nat) (hi : i ≤ buf.length) :
    blankTo buf i ≤ buf.length := by
  have h := eatBlankCount_le (buf.drop i)
  simp only [List.length_drop] at h
  simp only [blankTo]
  omega

theorem le_seperTo (buf : List Char) (i : Nat) : i ≤ seperTo buf i :=
  Nat.le_add_right i _

theorem seperTo_le (buf : List Char) (i : Nat) (hi : i ≤ buf.length) :
    seperTo buf i ≤ buf.length := by
  have h := getSeperCount_le (buf.drop i)
  simp only [List.length_drop] at h
  simp only [seperTo]
  omega

/-- Position form of eatBlankCount_stop: the buffer character at the offset
where a blank-skip started at i stops is neither a space nor a tab. -/
theorem blankTo_stop (buf : List Char) (i : Nat) :
    buf[blankTo buf i]? ≠ some ' ' ∧ buf[blankTo buf i]? ≠ some '\t' := by
  have h := eatBlankCount_stop (buf.drop i)
  rwa [List.getElem?_drop] at h

theorem lt_length_of_getElem?_some {l : List Char} {i : Nat} {c : Char}
    (h : l[i]? = some c) : i < l.length := by
  by_contra hge
  rw [List.getElem?_eq_none (by omega)] at h
  exact Option.noConfusion h

theorem seperTo_eq_self (buf : List Char) (j : Nat) (h : buf.length ≤ j) :
    seperTo buf j = j := by
  simp [seperTo, List.drop_eq_nil_of_le h, getSeperCount, getSeperCountAux]

/-! ## Projection lemmas for splitCore -/

theorem splitCore_cmd_begin (buf : List Char) (i1 : Nat) :
    (splitCore buf i1).cmd_begin = i1 := rfl

theorem splitCore_cmd_end (buf : List Char) (i1 : Nat) :
    (splitCore buf i1).cmd_end = seperTo buf i1 := rfl

theorem splitCore_params_begin (buf : List Char) (i1 : Nat) :
    (splitCore buf i1).params_begin = (paramPhase buf (seperTo buf i1)).1 := rfl

theorem splitCore_params_end (buf : List Char) (i1 : Nat) :
    (splitCore buf i1).params_end = (paramPhase buf (seperTo buf i1)).2.1 := rfl

theorem splitCore_sop_redir (buf : List Char) (i1 : Nat) :
    (splitCore buf i1).sop_redir =
      (redirOp buf (paramPhase buf (seperTo buf i1)).2.2).1 := rfl

theorem splitCore_redir_begin (buf : List Char) (i1 : Nat) :
    (splitCore buf i1).redir_begin =
      (redirTarget buf (redirOp buf (paramPhase buf (seperTo buf i1)).2.2).1
        (redirOp buf (paramPhase buf (seperTo buf i1)).2.2).2).1 := rfl

theorem splitCore_redir_end (buf : List Char) (i1 : Nat) :
    (splitCore buf i1).redir_end =
      (redirTarget buf (redirOp buf (paramPhase buf (seperTo buf i1)).2.2).1
        (redirOp buf (paramPhase buf (seperTo buf i1)).2.2).2).2.1 := rfl

theorem splitCore_oper (buf : List Char) (i1 : Nat) :
    (splitCore buf i1).oper =
      (controlOp buf
        (redirTarget buf (redirOp buf (paramPhase buf (seperTo buf i1)).2.2).1
          (redirOp buf (paramPhase buf (seperTo buf i1)).2.2).2).2.2).1 := rfl

theorem splitCore_context (buf : List Char) (i1 : Nat) :
    (splitCore buf i1).context =
      (controlOp buf
        (redirTarget buf (redirOp buf (paramPhase buf (seperTo buf i1)).2.2).1
          (redirOp buf (paramPhase buf (seperTo buf i1)).2.2).2).2.2).2 := rfl

theorem split_of_lt (buf : List Char) (i0 : Nat) (h : blankTo buf i0 < buf.length) :
    shell_command_param_split buf i0 = splitCore buf (blankTo buf i0) := by
  simp [shell_command_param_split, h]

theorem split_of_ge (buf : List Char) (i0 : Nat) (h : ¬ blankTo buf i0 < buf.length) :
    shell_command_param_split buf i0 =
      { cmd_begin := blankTo buf i0, cmd_end := blankTo buf i0,
        params_begin := none, params_end := none,
        sop_redir := .SOP_REDIR_NONE, redir_begin := none, redir_end := none,
        oper := .SOP_NONE, context := blankTo buf i0 } := by
  simp [shell_command_param_split, h]

/-! ## Phase specification lemmas -/

/-- Invariants of the parameter continuation loop, for any fuel: the cursor
only moves forward and stays inside the buffer, *params_end only moves
forward, never past the cursor, and is either still its starting value or
an offset whose character is a space (the only way the loop updates it). -/
theorem paramLoop_spec (buf : List Char) :
    ∀ (fuel i pe : Nat), pe ≤ i → i ≤ buf.length →
      i ≤ (paramLoop buf fuel i pe).1 ∧
      (paramLoop buf fuel i pe).1 ≤ buf.length ∧
      pe ≤ (paramLoop buf fuel i pe).2 ∧
      (paramLoop buf fuel i pe).2 ≤ (paramLoop buf fuel i pe).1 ∧
      ((paramLoop buf fuel i pe).2 = pe ∨
        buf[(paramLoop buf fuel i pe).2]? = some ' ') := by
  intro fuel
  induction fuel with
  | zero =>
    intro i pe hpe hi
    exact ⟨Nat.le_refl i, hi, Nat.le_refl pe, hpe, Or.inl rfl⟩
  | succ fuel ih =>
    intro i pe hpe hi
    have hstep : paramLoop buf (fuel + 1) i pe =
        if buf[i]? = some ' ' then
          paramLoop buf fuel (seperTo buf (blankTo buf i))
            (if buf[seperTo buf (blankTo buf i)]? = some ' ' then
              seperTo buf (blankTo buf i)
             else pe)
        else (i, pe) := rfl
    by_cases hsp : buf[i]? = some ' '
    · have hj : blankTo buf i ≤ buf.length := blankTo_le buf i hi
      have hk : seperTo buf (blankTo buf i) ≤ buf.length := seperTo_le buf _ hj
      have hik : i ≤ seperTo buf (blankTo buf i) :=
        Nat.le_trans (le_blankTo buf i) (le_seperTo buf _)
      rw [hstep, if_pos hsp]
      by_cases hks : buf[seperTo buf (blankTo buf i)]? = some ' '
      · rw [if_pos hks]
        have h := ih (seperTo buf (blankTo buf i)) (seperTo buf (blankTo buf i))
          (Nat.le_refl _) hk
        refine ⟨Nat.le_trans hik h.1, h.2.1, ?_, h.2.2.2.1, ?_⟩
        · exact Nat.le_trans (Nat.le_trans hpe hik) h.2.2.1
        · rcases h.2.2.2.2 with heq | hsp2
          · refine Or.inr ?_
            rw [heq]
            exact hks
          · exact Or.inr hsp2
      · rw [if_neg hks]
        have h := ih (seperTo buf (blankTo buf i)) pe
          (Nat.le_trans hpe hik) hk
        exact ⟨Nat.le_trans hik h.1, h.2.1, h.2.2.1, h.2.2.2.1, h.2.2.2.2⟩
    · rw [hstep, if_neg hsp]
      exact ⟨Nat.le_refl i, hi, Nat.le_refl pe, hpe, Or.inl rfl⟩

/-- Behaviour of the parameter phase: the cursor moves forward and stays in
the buffer; *params_begin is set exactly when the character at the entry
cursor is a space (line 107), in which case it is the position after the
blank skip, and *params_end is set with it, between it and the cursor, and
equal either to the end of the first scanned word or to an offset whose
character is a space. -/
theorem paramPhase_spec (buf : List Char) (i : Nat) (hi : i ≤ buf.length) :
    i ≤ (paramPhase buf i).2.2 ∧
    (paramPhase buf i).2.2 ≤ buf.length ∧
    ((paramPhase buf i).1.isSome ↔ buf[i]? = some ' ') ∧
    ((paramPhase buf i).1 = none → paramPhase buf i = (none, none, i)) ∧
    (∀ pb, (paramPhase buf i).1 = some pb →
      pb = blankTo buf i ∧
      ∃ pe, (paramPhase buf i).2.1 = some pe ∧ seperTo buf pb ≤ pe ∧
        pe ≤ (paramPhase buf i).2.2 ∧
        (pe = seperTo buf pb ∨ buf[pe]? = some ' ')) := by
  by_cases hsp : buf[i]? = some ' '
  · by_cases hlt : blankTo buf i < buf.length
    · have h := paramLoop_spec buf (buf.length + 1)
        (seperTo buf (blankTo buf i)) (seperTo buf (blankTo buf i))
        (Nat.le_refl _) (seperTo_le buf _ (Nat.le_of_lt hlt))
      have hP : paramPhase buf i =
          (some (blankTo buf i),
           some (paramLoop buf (buf.length + 1) (seperTo buf (blankTo buf i))
             (seperTo buf (blankTo buf i))).2,
           (paramLoop buf (buf.length + 1) (seperTo buf (blankTo buf i))
             (seperTo buf (blankTo buf i))).1) := by
        simp only [paramPhase]
        rw [if_pos hsp, if_pos hlt]
      rw [hP]
      refine ⟨?_, h.2.1, by simp [hsp], by simp, ?_⟩
      · exact Nat.le_trans (Nat.le_trans (le_blankTo buf i) (le_seperTo buf _)) h.1
      · intro pb hpb
        have hpb2 : pb = blankTo buf i := by
          simpa using hpb.symm
        refine ⟨hpb2, _, rfl, ?_, h.2.2.2.1, ?_⟩
        · rw [hpb2]
          exact h.2.2.1
        · rcases h.2.2.2.2 with heq | hsp2
          · exact Or.inl (by rw [heq, hpb2])
          · exact Or.inr hsp2
    · have hP : paramPhase buf i =
          (some (blankTo buf i), some (blankTo buf i), blankTo buf i) := by
        simp only [paramPhase]
        rw [if_pos hsp, if_neg hlt]
      rw [hP]
      refine ⟨le_blankTo buf i, blankTo_le buf i hi, by simp [hsp], by simp, ?_⟩
      intro pb hpb
      have hpb2 : pb = blankTo buf i := by simpa using hpb.symm
      refine ⟨hpb2, _, rfl, ?_, Nat.le_refl _, Or.inl ?_⟩
      · rw [hpb2, seperTo_eq_self buf _ (Nat.le_of_not_lt hlt)]
      · rw [hpb2, seperTo_eq_self buf _ (Nat.le_of_not_lt hlt)]
  · have hP : paramPhase buf i = (none, none, i) := by
      simp only [paramPhase]
      rw [if_neg hsp]
    rw [hP]
    refine ⟨Nat.le_refl i, hi, by simp [hsp], fun _ => rfl, ?_⟩
    intro pb hpb
    simp at hpb

/-- Behaviour of the redirection-operator switch: the cursor moves forward
only past the one or two operator characters actually present, and not at
all in the default case. -/
theorem redirOp_spec (buf : List Char) (i : Nat) (hi : i ≤ buf.length) :
    i ≤ (redirOp buf i).2 ∧ (redirOp buf i).2 ≤ buf.length ∧
    ((redirOp buf i).1 = .SOP_REDIR_NONE → (redirOp buf i).2 = i) := by
  unfold redirOp
  split_ifs with h1 h2 h3 h4
  · have := lt_length_of_getElem?_some h2
    exact ⟨by omega, by omega, by simp⟩
  · have := lt_length_of_getElem?_some h1
    exact ⟨by omega, by omega, by simp⟩
  · have := lt_length_of_getElem?_some h4
    exact ⟨by omega, by omega, by simp⟩
  · have := lt_length_of_getElem?_some h3
    exact ⟨by omega, by omega, by simp⟩
  · exact ⟨Nat.le_refl i, hi, fun _ => rfl⟩

/-- Behaviour of the redirection-target phase: the cursor moves forward and
stays inside the buffer; *redir_begin is set exactly when a redirection
operator was consumed and the input has not ended (line 143), and then
*redir_end is set with it, between it and the cursor. -/
theorem redirTarget_spec (buf : List Char) (r : shell_redir) (i : Nat)
    (hi : i ≤ buf.length) :
    i ≤ (redirTarget buf r i).2.2 ∧
    (redirTarget buf r i).2.2 ≤ buf.length ∧
    ((redirTarget buf r i).1.isSome ↔ (r ≠ .SOP_REDIR_NONE ∧ i < buf.length)) ∧
    ((redirTarget buf r i).1 = none → redirTarget buf r i = (none, none, i)) ∧
    (∀ rb, (redirTarget buf r i).1 = some rb →
      ∃ re, (redirTarget buf r i).2.1 = some re ∧ i ≤ rb ∧ rb ≤ re ∧
        re ≤ (redirTarget buf r i).2.2) := by
  by_cases hc : r ≠ .SOP_REDIR_NONE ∧ i < buf.length
  · by_cases hlt : blankTo buf i < buf.length
    · have hRT : redirTarget buf r i =
          (some (blankTo buf i), some (seperTo buf (blankTo buf i)),
           blankTo buf (seperTo buf (blankTo buf i))) := by
        simp only [redirTarget]
        rw [if_pos hc, if_pos hlt]
      rw [hRT]
      refine ⟨?_, ?_, by simp [hc], by simp, ?_⟩
      · exact Nat.le_trans (le_blankTo buf i)
          (Nat.le_trans (le_seperTo buf _) (le_blankTo buf _))
      · exact blankTo_le buf _ (seperTo_le buf _ (Nat.le_of_lt hlt))
      · intro rb hrb
        have hrb2 : rb = blankTo buf i := by simpa using hrb.symm
        refine ⟨_, rfl, ?_, ?_, le_blankTo buf _⟩
        · rw [hrb2]
          exact le_blankTo buf i
        · rw [hrb2]
          exact le_seperTo buf _
    · have hRT : redirTarget buf r i =
          (some (blankTo buf i), some (blankTo buf i), blankTo buf i) := by
        simp only [redirTarget]
        rw [if_pos hc, if_neg hlt]
      rw [hRT]
      refine ⟨le_blankTo buf i, blankTo_le buf i hi, by simp [hc], by simp, ?_⟩
      intro rb hrb
      have hrb2 : rb = blankTo buf i := by simpa using hrb.symm
      refine ⟨_, rfl, ?_, ?_, Nat.le_refl _⟩
      · rw [hrb2]
        exact le_blankTo buf i
      · rw [hrb2]
  · have hRT : redirTarget buf r i = (none, none, i) := by
      simp only [redirTarget]
      rw [if_neg hc]
    rw [hRT]
    refine ⟨Nat.le_refl i, hi, by simp [hc], fun _ => rfl, ?_⟩
    intro rb hrb
    simp at hrb

/-- Behaviour of the control-operator switch: the cursor moves forward only
past the one or two operator characters actually present, and not at all in
the default case. -/
theorem controlOp_spec (buf : List Char) (i : Nat) (hi : i ≤ buf.length) :
    i ≤ (controlOp buf i).2 ∧ (controlOp buf i).2 ≤ buf.length ∧
    ((controlOp buf i).1 = .SOP_NONE → (controlOp buf i).2 = i) := by
  unfold controlOp
  split_ifs with h1 h2 h3 h4 h5
  · have := lt_length_of_getElem?_some h2
    exact ⟨by omega, by omega, by simp⟩
  · have := lt_length_of_getElem?_some h1
    exact ⟨by omega, by omega, by simp⟩
  · have := lt_length_of_getElem?_some h4
    exact ⟨by omega, by omega, by simp⟩
  · have := lt_length_of_getElem?_some h3
    exact ⟨by omega, by omega, by simp⟩
  · have := lt_length_of_getElem?_some h5
    exact ⟨by omega, by omega, by simp⟩
  · exact ⟨Nat.le_refl i, hi, fun _ => rfl⟩

/-- At end of input (the cursor at or past the terminating NUL) the
control-operator switch takes the default case. -/
theorem controlOp_at_end (buf : List Char) (i : Nat) (h : buf.length ≤ i) :
    controlOp buf i = (.SOP_NONE, i) := by
  have hn : buf[i]? = none := List.getElem?_eq_none h
  simp [controlOp, hn]

/-- At end of input the redirection switch takes the default case. -/
theorem redirOp_at_end (buf : List Char) (i : Nat) (h : buf.length ≤ i) :
    redirOp buf i = (.SOP_REDIR_NONE, i) := by
  have hn : buf[i]? = none := List.getElem?_eq_none h
  simp [redirOp, hn]

/-- The parameter continuation loop does not run when the byte at the
cursor — the byte that terminated the previous scan — is not a space: a
tab, an operator byte or end of input all stop it (line 113 tests for a
space only). -/
theorem paramLoop_stop (buf : List Char) (fuel i pe : Nat)
    (h : ¬ buf[i]? = some ' ') : paramLoop buf fuel i pe = (i, pe) := by
  cases fuel with
  | zero => rfl
  | succ fuel =>
    have hstep : paramLoop buf (fuel + 1) i pe =
        if buf[i]? = some ' ' then
          paramLoop buf fuel (seperTo buf (blankTo buf i))
            (if buf[seperTo buf (blankTo buf i)]? = some ' ' then
              seperTo buf (blankTo buf i)
             else pe)
        else (i, pe) := rfl
    rw [hstep, if_neg h]

/-- The parameter continuation loop never moves the cursor backwards. -/
theorem paramLoop_cursor_mono (buf : List Char) :
    ∀ (fuel i pe : Nat), i ≤ (paramLoop buf fuel i pe).1 := by
  intro fuel
  induction fuel with
  | zero =>
    intro i pe
    exact Nat.le_refl i
  | succ fuel ih =>
    intro i pe
    by_cases hsp : buf[i]? = some ' '
    · have hstep : paramLoop buf (fuel + 1) i pe =
          if buf[i]? = some ' ' then
            paramLoop buf fuel (seperTo buf (blankTo buf i))
              (if buf[seperTo buf (blankTo buf i)]? = some ' ' then
                seperTo buf (blankTo buf i)
               else pe)
          else (i, pe) := rfl
      rw [hstep, if_pos hsp]
      exact Nat.le_trans (Nat.le_trans (le_blankTo buf i) (le_seperTo buf _))
        (ih _ _)
    · rw [paramLoop_stop buf _ i pe hsp]

/-- A blank skip started on a space strictly advances the cursor. -/
theorem blankTo_pos (buf : List Char) (i : Nat) (h : buf[i]? = some ' ') :
    i < blankTo buf i := by
  have hlt : i < buf.length := lt_length_of_getElem?_some h
  have hdrop := List.drop_eq_getElem_cons (l := buf) (n := i) hlt
  have hgi : buf[i] = ' ' :=
    Option.some.inj ((List.getElem?_eq_getElem hlt).symm.trans h)
  have hb : isBlank ' ' = true := by decide
  simp only [blankTo]
  rw [hdrop, hgi]
  simp only [eatBlankCount, hb, if_true]
  omega

/-- A blank skip at or past end of input is a no-op. -/
theorem blankTo_eq_self (buf : List Char) (j : Nat) (h : buf.length ≤ j) :
    blankTo buf j = j := by
  simp [blankTo, List.drop_eq_nil_of_le h, eatBlankCount]

/-- When the parameter phase runs but its first scan matches nothing, the
params range is the empty range at the position where scanning stopped:
both pointers at the post-blank-skip offset, the cursor unmoved. -/
theorem paramPhase_no_word (buf : List Char) (i : Nat)
    (hsp : buf[i]? = some ' ')
    (hscan : seperTo buf (blankTo buf i) = blankTo buf i) :
    paramPhase buf i =
      (some (blankTo buf i), some (blankTo buf i), blankTo buf i) := by
  by_cases hlt : blankTo buf i < buf.length
  · have hP : paramPhase buf i =
        (some (blankTo buf i),
         some (paramLoop buf (buf.length + 1) (seperTo buf (blankTo buf i))
           (seperTo buf (blankTo buf i))).2,
         (paramLoop buf (buf.length + 1) (seperTo buf (blankTo buf i))
           (seperTo buf (blankTo buf i))).1) := by
      simp only [paramPhase]
      rw [if_pos hsp, if_pos hlt]
    rw [hP, hscan, paramLoop_stop buf _ _ _ (blankTo_stop buf i).1]
  · simp only [paramPhase]
    rw [if_pos hsp, if_neg hlt]

/-- When the parameter phase runs and its first scan consumes every
remaining byte (the unterminated-quote case in the params token), the
params range extends to end of input and the cursor lands there. -/
theorem paramPhase_to_end (buf : List Char) (i : Nat)
    (hsp : buf[i]? = some ' ')
    (hscan : seperTo buf (blankTo buf i) = buf.length) :
    paramPhase buf i = (some (blankTo buf i), some buf.length, buf.length) := by
  by_cases hlt : blankTo buf i < buf.length
  · have hP : paramPhase buf i =
        (some (blankTo buf i),
         some (paramLoop buf (buf.length + 1) (seperTo buf (blankTo buf i))
           (seperTo buf (blankTo buf i))).2,
         (paramLoop buf (buf.length + 1) (seperTo buf (blankTo buf i))
           (seperTo buf (blankTo buf i))).1) := by
      simp only [paramPhase]
      rw [if_pos hsp, if_pos hlt]
    have hend : ¬ buf[buf.length]? = some ' ' := by
      simp [List.getElem?_eq_none (Nat.le_refl buf.length)]
    rw [hP, hscan, paramLoop_stop buf _ _ _ hend]
  · have hj : blankTo buf i = buf.length := by
      have := seperTo_eq_self buf (blankTo buf i) (Nat.le_of_not_lt hlt)
      omega
    simp only [paramPhase]
    rw [if_pos hsp, if_neg hlt, hj]

/-- When the redirection-target phase sets the begin pointer, the end
pointer is exactly the stop position of its one GET_SEPER scan from there;
in particular a scan that matches nothing yields the empty range at the
stop position. -/
theorem redirTarget_end_eq (buf : List Char) (r : shell_redir) (i : Nat) :
    ∀ rb, (redirTarget buf r i).1 = some rb →
      (redirTarget buf r i).2.1 = some (seperTo buf rb) := by
  intro rb hrb
  by_cases hc : r ≠ .SOP_REDIR_NONE ∧ i < buf.length
  · by_cases hlt : blankTo buf i < buf.length
    · have hRT : redirTarget buf r i =
          (some (blankTo buf i), some (seperTo buf (blankTo buf i)),
           blankTo buf (seperTo buf (blankTo buf i))) := by
        simp only [redirTarget]
        rw [if_pos hc, if_pos hlt]
      rw [hRT] at hrb ⊢
      have hrb2 : blankTo buf i = rb := by
        simpa using hrb
      rw [← hrb2]
    · have hRT : redirTarget buf r i =
          (some (blankTo buf i), some (blankTo buf i), blankTo buf i) := by
        simp only [redirTarget]
        rw [if_pos hc, if_neg hlt]
      rw [hRT] at hrb ⊢
      have hrb2 : blankTo buf i = rb := by
        simpa using hrb
      rw [← hrb2, seperTo_eq_self buf _ (Nat.le_of_not_lt hlt)]
  · have hRT : redirTarget buf r i = (none, none, i) := by
      simp only [redirTarget]
      rw [if_neg hc]
    rw [hRT] at hrb
    exact absurd hrb (by simp)

/-- When end of input immediately follows the consumed redirection operator
(the phase entered at or past the buffer end), the target pointers stay
NULL: the `*cp` conjunct of line 143 fails. -/
theorem redirTarget_none_of_end (buf : List Char) (r : shell_redir) (j : Nat)
    (hj : buf.length ≤ j) : (redirTarget buf r j).1 = none := by
  have hc : ¬ (r ≠ .SOP_REDIR_NONE ∧ j < buf.length) := by
    intro hcc
    omega
  simp only [redirTarget]
  rw [if_neg hc]

/-- The full non-decreasing chain of offsets through the phases of
splitCore: each range begins no earlier than the previous one ended, and
everything stays inside the buffer. -/
theorem splitCore_chain (buf : List Char) (i1 : Nat) (h1 : i1 < buf.length) :
    (splitCore buf i1).cmd_begin ≤ (splitCore buf i1).cmd_end ∧
    (splitCore buf i1).cmd_end ≤ pbD (splitCore buf i1) ∧
    pbD (splitCore buf i1) ≤ peD (splitCore buf i1) ∧
    peD (splitCore buf i1) ≤ rbD (splitCore buf i1) ∧
    rbD (splitCore buf i1) ≤ reD (splitCore buf i1) ∧
    reD (splitCore buf i1) ≤ (splitCore buf i1).context ∧
    (splitCore buf i1).context ≤ buf.length := by
  have hi2 : seperTo buf i1 ≤ buf.length := seperTo_le buf i1 (Nat.le_of_lt h1)
  have hp := paramPhase_spec buf (seperTo buf i1) hi2
  have hro := redirOp_spec buf (paramPhase buf (seperTo buf i1)).2.2 hp.2.1
  have hrt := redirTarget_spec buf
    (redirOp buf (paramPhase buf (seperTo buf i1)).2.2).1
    (redirOp buf (paramPhase buf (seperTo buf i1)).2.2).2 hro.2.1
  have hco := controlOp_spec buf
    (redirTarget buf (redirOp buf (paramPhase buf (seperTo buf i1)).2.2).1
      (redirOp buf (paramPhase buf (seperTo buf i1)).2.2).2).2.2 hrt.2.1
  have hstep1 : i1 ≤ seperTo buf i1 := le_seperTo buf i1
  have hstep2 := hp.1
  have hstep3 := hro.1
  have hstep4 := hrt.1
  have hstep5 := hco.1
  have hlen := hco.2.1
  simp only [pbD, peD, rbD, reD, splitCore_cmd_begin, splitCore_cmd_end,
    splitCore_params_begin, splitCore_params_end, splitCore_redir_begin,
    splitCore_redir_end, splitCore_context]
  rcases hP1 : (paramPhase buf (seperTo buf i1)).1 with _ | pb
  · have hPe : (paramPhase buf (seperTo buf i1)).2.1 = none := by
      rw [hp.2.2.2.1 hP1]
    rw [hPe]
    simp only [Option.getD_none]
    rcases hR1 : (redirTarget buf (redirOp buf (paramPhase buf (seperTo buf i1)).2.2).1
        (redirOp buf (paramPhase buf (seperTo buf i1)).2.2).2).1 with _ | rb
    · have hRe : (redirTarget buf (redirOp buf (paramPhase buf (seperTo buf i1)).2.2).1
          (redirOp buf (paramPhase buf (seperTo buf i1)).2.2).2).2.1 = none := by
        rw [hrt.2.2.2.1 hR1]
      rw [hRe]
      simp only [Option.getD_none]
      refine ⟨?_, ?_, ?_, ?_, ?_, ?_, ?_⟩ <;> omega
    · obtain ⟨re, hre, hi4rb, hrbre, hreRT⟩ := hrt.2.2.2.2 rb hR1
      rw [hre]
      simp only [Option.getD_some]
      refine ⟨?_, ?_, ?_, ?_, ?_, ?_, ?_⟩ <;> omega
  · obtain ⟨hpbEq, pe, hpe, hspe, hpeP, _⟩ := hp.2.2.2.2 pb hP1
    have hpb1 : seperTo buf i1 ≤ pb := by
      rw [hpbEq]
      exact le_blankTo buf _
    have hpb2 : pb ≤ pe := Nat.le_trans (le_seperTo buf pb) hspe
    rw [hpe]
    simp only [Option.getD_some]
    rcases hR1 : (redirTarget buf (redirOp buf (paramPhase buf (seperTo buf i1)).2.2).1
        (redirOp buf (paramPhase buf (seperTo buf i1)).2.2).2).1 with _ | rb
    · have hRe : (redirTarget buf (redirOp buf (paramPhase buf (seperTo buf i1)).2.2).1
          (redirOp buf (paramPhase buf (seperTo buf i1)).2.2).2).2.1 = none := by
        rw [hrt.2.2.2.1 hR1]
      rw [hRe]
      simp only [Option.getD_none]
      refine ⟨?_, ?_, ?_, ?_, ?_, ?_, ?_⟩ <;> omega
    · obtain ⟨re, hre, hi4rb, hrbre, hreRT⟩ := hrt.2.2.2.2 rb hR1
      rw [hre]
      simp only [Option.getD_some]
      refine ⟨?_, ?_, ?_, ?_, ?_, ?_, ?_⟩ <;> omega

/-- The offset chain for the whole call, both branches of the line-104
test. -/
theorem split_chain (buf : List Char) (i : Nat) (hi : i ≤ buf.length) :
    (shell_command_param_split buf i).cmd_begin ≤
      (shell_command_param_split buf i).cmd_end ∧
    (shell_command_param_split buf i).cmd_end ≤
      pbD (shell_command_param_split buf i) ∧
    pbD (shell_command_param_split buf i) ≤ peD (shell_command_param_split buf i) ∧
    peD (shell_command_param_split buf i) ≤ rbD (shell_command_param_split buf i) ∧
    rbD (shell_command_param_split buf i) ≤ reD (shell_command_param_split buf i) ∧
    reD (shell_command_param_split buf i) ≤
      (shell_command_param_split buf i).context ∧
    (shell_command_param_split buf i).context ≤ buf.length := by
  by_cases h : blankTo buf i < buf.length
  · rw [split_of_lt buf i h]
    exact splitCore_chain buf _ h
  · rw [split_of_ge buf i h]
    simp only [pbD, peD, rbD, reD, Option.getD_none]
    exact ⟨Nat.le_refl _, Nat.le_refl _, Nat.le_refl _, Nat.le_refl _,
      Nat.le_refl _, Nat.le_refl _, blankTo_le buf i hi⟩

/-! ## Claim theorems -/

/-- C5: for every input buffer and every call of a parse chain (a cursor
inside the buffer bounds, as the first call's 0 and every returned context
are), the returned ranges satisfy command.start <= command.end <= length of
the buffer, and the ranges are non-decreasing in position: command.end <=
params.start <= params.end <= redirection_target.start <=
redirection_target.end <= the new cursor offset, all within the buffer
bounds (NULL range endpoints read through the previous endpoint). -/
theorem C5_range_ordering (buf : List Char) (i : Nat) (hi : i ≤ buf.length) :
    (shell_command_param_split buf i).cmd_begin ≤
      (shell_command_param_split buf i).cmd_end ∧
    (shell_command_param_split buf i).cmd_end ≤ buf.length ∧
    (shell_command_param_split buf i).cmd_end ≤
      pbD (shell_command_param_split buf i) ∧
    pbD (shell_command_param_split buf i) ≤ peD (shell_command_param_split buf i) ∧
    peD (shell_command_param_split buf i) ≤ rbD (shell_command_param_split buf i) ∧
    rbD (shell_command_param_split buf i) ≤ reD (shell_command_param_split buf i) ∧
    reD (shell_command_param_split buf i) ≤
      (shell_command_param_split buf i).context ∧
    (shell_command_param_split buf i).context ≤ buf.length := by
  obtain ⟨h1, h2, h3, h4, h5, h6, h7⟩ := split_chain buf i hi
  exact ⟨h1, by omega, h2, h3, h4, h5, h6, h7⟩

theorem C5_range_ordering_witness :
    (shell_command_param_split ("echo a > b | c".toList) 0).cmd_begin ≤
      (shell_command_param_split ("echo a > b | c".toList) 0).cmd_end ∧
    (shell_command_param_split ("echo a > b | c".toList) 0).cmd_end ≤
      ("echo a > b | c".toList).length ∧
    (shell_command_param_split ("echo a > b | c".toList) 0).cmd_end ≤
      pbD (shell_command_param_split ("echo a > b | c".toList) 0) ∧
    pbD (shell_command_param_split ("echo a > b | c".toList) 0) ≤
      peD (shell_command_param_split ("echo a > b | c".toList) 0) ∧
    peD (shell_command_param_split ("echo a > b | c".toList) 0) ≤
      rbD (shell_command_param_split ("echo a > b | c".toList) 0) ∧
    rbD (shell_command_param_split ("echo a > b | c".toList) 0) ≤
      reD (shell_command_param_split ("echo a > b | c".toList) 0) ∧
    reD (shell_command_param_split ("echo a > b | c".toList) 0) ≤
      (shell_command_param_split ("echo a > b | c".toList) 0).context ∧
    (shell_command_param_split ("echo a > b | c".toList) 0).context ≤
      ("echo a > b | c".toList).length :=
  C5_range_ordering ("echo a > b | c".toList) 0 (by decide)

/-- C4: for every input buffer (including empty strings, all-blank strings,
operator-only strings and unterminated quotes) the function is total and
every scan is bounded by the end of input: the scanning macros never consume
past the remaining input, and every offset the call returns lies inside the
buffer bounds, so the call returns an ordinary ParsedStatement and no input
reaches a fatal condition or an out-of-bounds access. -/
theorem C4_no_fatal :
    (∀ l : List Char, eatBlankCount l ≤ l.length) ∧
    (∀ l : List Char, getSeperCount l ≤ l.length) ∧
    (∀ (q : Char) (l : List Char), getCharCount q l ≤ l.length) ∧
    (∀ (buf : List Char) (i : Nat), i ≤ buf.length →
      (shell_command_param_split buf i).cmd_begin ≤ buf.length ∧
      (shell_command_param_split buf i).cmd_end ≤ buf.length ∧
      pbD (shell_command_param_split buf i) ≤ buf.length ∧
      peD (shell_command_param_split buf i) ≤ buf.length ∧
      rbD (shell_command_param_split buf i) ≤ buf.length ∧
      reD (shell_command_param_split buf i) ≤ buf.length ∧
      (shell_command_param_split buf i).context ≤ buf.length) := by
  refine ⟨eatBlankCount_le, getSeperCount_le, getCharCount_le, ?_⟩
  intro buf i hi
  obtain ⟨h1, h2, h3, h4, h5, h6, h7⟩ := split_chain buf i hi
  exact ⟨by omega, by omega, by omega, by omega, by omega, by omega, h7⟩

theorem C4_no_fatal_witness :
    eatBlankCount ("  \t".toList) ≤ ("  \t".toList).length ∧
    getSeperCount ("a\"b c".toList) ≤ ("a\"b c".toList).length ∧
    getCharCount '\"' ("xy".toList) ≤ ("xy".toList).length ∧
    (shell_command_param_split ("\"no close | ;&".toList) 0).context ≤
      ("\"no close | ;&".toList).length :=
  ⟨C4_no_fatal.1 _, C4_no_fatal.2.1 _, C4_no_fatal.2.2.1 _ _,
   (C4_no_fatal.2.2.2 ("\"no close | ;&".toList) 0 (by decide)).2.2.2.2.2.2⟩

/-- C1, counterexample: the claim says every token range in the returned
statement is defined (never NULL).  On input "echo" no blank follows the
command, and the params pointers stay NULL rather than forming an empty
range at command.end; on input "echo >" end-of-input immediately follows the
redirection operator and the target pointers stay NULL rather than forming
an empty range. -/
theorem C1_counterexample :
    (shell_command_param_split ("echo".toList) 0).cmd_end = 4 ∧
    (shell_command_param_split ("echo".toList) 0).params_begin = none ∧
    (shell_command_param_split ("echo".toList) 0).params_end = none ∧
    (shell_command_param_split ("echo >".toList) 0).sop_redir =
      .SOP_REDIR_OUT ∧
    (shell_command_param_split ("echo >".toList) 0).redir_begin = none ∧
    (shell_command_param_split ("echo >".toList) 0).redir_end = none := by
  decide

/-- C1, amended: the two pointers of each optional range are NULL together
or defined together; params is defined exactly when the byte at command.end
is a space (so it is NULL, not an empty range at command.end, when no blank
followed the command); the redirection target is defined only when a
redirection operator was consumed, and when the operator was consumed but
the target is still NULL, end-of-input immediately followed the operator:
the returned cursor is the end of the buffer and the control operator is
SOP_NONE — and conversely, entering the target phase at or past the end of
input always leaves the target NULL.  When a phase does run and its scan
matches nothing, its range is the empty range at the position where
scanning stopped: a params scan that consumes nothing leaves params.end at
params.start, and the target range always ends exactly where its one scan
from target.start stops.  The command range itself is always defined. -/
theorem C1_defined_ranges_amended :
    ∀ (buf : List Char) (i : Nat),
      ((shell_command_param_split buf i).params_begin = none ↔
        (shell_command_param_split buf i).params_end = none) ∧
      ((shell_command_param_split buf i).redir_begin = none ↔
        (shell_command_param_split buf i).redir_end = none) ∧
      ((shell_command_param_split buf i).params_begin.isSome = true ↔
        buf[(shell_command_param_split buf i).cmd_end]? = some ' ') ∧
      ((shell_command_param_split buf i).redir_begin = none ∨
        (shell_command_param_split buf i).sop_redir ≠ .SOP_REDIR_NONE) ∧
      ((shell_command_param_split buf i).sop_redir = .SOP_REDIR_NONE ∨
        (shell_command_param_split buf i).redir_begin.isSome = true ∨
        ((shell_command_param_split buf i).context = buf.length ∧
          (shell_command_param_split buf i).oper = .SOP_NONE)) ∧
      (∀ pb, (shell_command_param_split buf i).params_begin = some pb →
        seperTo buf pb = pb →
        (shell_command_param_split buf i).params_end = some pb) ∧
      (∀ rb, (shell_command_param_split buf i).redir_begin = some rb →
        (shell_command_param_split buf i).redir_end =
          some (seperTo buf rb)) ∧
      (∀ (r : shell_redir) (j : Nat), r ≠ .SOP_REDIR_NONE →
        buf.length ≤ j → (redirTarget buf r j).1 = none) := by
  intro buf i
  have hcl8 : ∀ (r : shell_redir) (j : Nat), r ≠ .SOP_REDIR_NONE →
      buf.length ≤ j → (redirTarget buf r j).1 = none := fun r j _ hj =>
    redirTarget_none_of_end buf r j hj
  by_cases h : blankTo buf i < buf.length
  · rw [split_of_lt buf i h]
    simp only [splitCore_cmd_end, splitCore_params_begin, splitCore_params_end,
      splitCore_sop_redir, splitCore_redir_begin, splitCore_redir_end,
      splitCore_oper, splitCore_context]
    have hi2 : seperTo buf (blankTo buf i) ≤ buf.length :=
      seperTo_le buf _ (Nat.le_of_lt h)
    set i2 := seperTo buf (blankTo buf i) with hi2def
    have hp := paramPhase_spec buf i2 hi2
    set P := paramPhase buf i2 with hPdef
    have hro := redirOp_spec buf P.2.2 hp.2.1
    set RO := redirOp buf P.2.2 with hROdef
    have hrt := redirTarget_spec buf RO.1 RO.2 hro.2.1
    set RT := redirTarget buf RO.1 RO.2 with hRTdef
    refine ⟨?_, ?_, hp.2.2.1, ?_, ?_, ?_, ?_, hcl8⟩
    · constructor
      · intro h0
        rw [hp.2.2.2.1 h0]
      · intro h0
        rcases hq : P.1 with _ | pb
        · rfl
        · obtain ⟨_, pe, hpe, _⟩ := hp.2.2.2.2 pb hq
          rw [hpe] at h0
          exact absurd h0 (by simp)
    · constructor
      · intro h0
        rw [hrt.2.2.2.1 h0]
      · intro h0
        rcases hq : RT.1 with _ | rb
        · rfl
        · obtain ⟨re, hre, _⟩ := hrt.2.2.2.2 rb hq
          rw [hre] at h0
          exact absurd h0 (by simp)
    · by_cases hr : RO.1 = .SOP_REDIR_NONE
      · left
        have hnot : ¬ (RT.1.isSome = true) := by
          rw [hrt.2.2.1]
          simp [hr]
        exact Option.not_isSome_iff_eq_none.mp hnot
      · right
        exact hr
    · by_cases hr : RO.1 = .SOP_REDIR_NONE
      · left
        exact hr
      · by_cases hrb : RT.1.isSome = true
        · right
          left
          exact hrb
        · right
          right
          have hi4 : ¬ (RO.2 < buf.length) := fun hlt =>
            hrb (hrt.2.2.1.mpr ⟨hr, hlt⟩)
          have hi4eq : RO.2 = buf.length := by
            have := hro.2.1
            omega
          have hRTeq := hrt.2.2.2.1 (Option.not_isSome_iff_eq_none.mp hrb)
          have hRTc : RT.2.2 = RO.2 := by
            rw [hRTeq]
          rw [hRTc, hi4eq, controlOp_at_end buf buf.length (Nat.le_refl _)]
          exact ⟨rfl, rfl⟩
    · intro pb hpb hscan
      have hsp : buf[i2]? = some ' ' := hp.2.2.1.mp (by
        rw [hpb]
        rfl)
      have hpbEq : pb = blankTo buf i2 := (hp.2.2.2.2 pb hpb).1
      have hscan2 : seperTo buf (blankTo buf i2) = blankTo buf i2 := by
        rw [← hpbEq]
        exact hscan
      have hW := paramPhase_no_word buf i2 hsp hscan2
      rw [← hPdef] at hW
      rw [hW, hpbEq]
    · intro rb hrb
      have h7 := redirTarget_end_eq buf RO.1 RO.2 rb
      rw [← hRTdef] at h7
      exact h7 hrb
  · rw [split_of_ge buf i h]
    have hnone : buf[blankTo buf i]? = none :=
      List.getElem?_eq_none (Nat.le_of_not_lt h)
    refine ⟨by simp, by simp, by simp [hnone], by simp, by simp, ?_, ?_, hcl8⟩
    · intro pb hpb
      simp at hpb
    · intro rb hrb
      simp at hrb

theorem C1_defined_ranges_amended_witness :
    (shell_command_param_split ("echo >".toList) 0).params_end = some 5 ∧
    (shell_command_param_split ("echo >a".toList) 0).redir_end =
      some (seperTo ("echo >a".toList) 6) ∧
    (redirTarget ("x".toList) .SOP_REDIR_OUT 1).1 = none :=
  ⟨(C1_defined_ranges_amended ("echo >".toList) 0).2.2.2.2.2.1 5
     (by decide) (by decide),
   (C1_defined_ranges_amended ("echo >a".toList) 0).2.2.2.2.2.2.1 6
     (by decide),
   (C1_defined_ranges_amended ("x".toList) 0).2.2.2.2.2.2.2 .SOP_REDIR_OUT 1
     (by decide) (by decide)⟩

/-- EAT_BLANK consumes the whole remaining input when it is all blanks. -/
theorem eatBlankCount_all (l : List Char) (h : l.all isBlank = true) :
    eatBlankCount l = l.length := by
  induction l with
  | nil => simp [eatBlankCount]
  | cons c rest ih =>
    simp only [List.all_cons, Bool.and_eq_true] at h
    simp [eatBlankCount, h.1, ih h.2]

/-- C2, counterexample: the claim says blanks — space or tab alike — start
and continue the parameter phase.  Both parts fail on a tab.  Trigger: on
"echo\tx" the byte after the command is a tab, a blank, yet the parameter
phase does not run (line 107 tests for a space only) and params stays NULL.
Continuation: on "echo a\tb" the first parameter word is terminated by a
tab, a blank, which per the claim is interior and continues the scan to
cover b (params would end at 8); the loop of line 113 also tests for a
space only, so the scan stops and params ends at 6, covering a alone. -/
theorem C2_counterexample :
    ("echo\tx".toList)[(shell_command_param_split ("echo\tx".toList) 0).cmd_end]? =
      some '\t' ∧
    isBlank '\t' = true ∧
    (shell_command_param_split ("echo\tx".toList) 0).params_begin = none ∧
    (shell_command_param_split ("echo a\tb".toList) 0).params_begin = some 5 ∧
    (shell_command_param_split ("echo a\tb".toList) 0).params_end = some 6 ∧
    ("echo a\tb".toList)[6]? = some '\t' ∧
    ¬ (shell_command_param_split ("echo a\tb".toList) 0).params_end = some 8 := by
  decide

/-- C2, amended: the parameter phase runs exactly when the byte immediately
after the command token is a space (a tab does not trigger it, although
once the phase runs the blank skip consumes spaces and tabs alike); when it
runs, params.start is the offset after the blank skip from command.end, an
offset whose byte is neither a space nor a tab — the first non-blank byte.
The parameter scan likewise continues past a run of blanks only when the
byte terminating the previous scan is a space: the continuation loop is a
no-op whenever the byte at its cursor is not a space (a tab, an operator
byte or end of input), and strictly advances the cursor when it is one. -/
theorem C2_param_phase_amended :
    ∀ (buf : List Char) (i : Nat),
      ((shell_command_param_split buf i).params_begin.isSome = true ↔
        buf[(shell_command_param_split buf i).cmd_end]? = some ' ') ∧
      ((shell_command_param_split buf i).params_begin = none ∨
        ((shell_command_param_split buf i).params_begin =
            some (blankTo buf (shell_command_param_split buf i).cmd_end) ∧
          buf[blankTo buf (shell_command_param_split buf i).cmd_end]? ≠ some ' ' ∧
          buf[blankTo buf (shell_command_param_split buf i).cmd_end]? ≠ some '\t')) ∧
      (∀ (fuel j pe : Nat), ¬ buf[j]? = some ' ' →
        paramLoop buf fuel j pe = (j, pe)) ∧
      (∀ (fuel j pe : Nat), buf[j]? = some ' ' →
        j < (paramLoop buf (fuel + 1) j pe).1) := by
  intro buf i
  have h12 :
      ((shell_command_param_split buf i).params_begin.isSome = true ↔
        buf[(shell_command_param_split buf i).cmd_end]? = some ' ') ∧
      ((shell_command_param_split buf i).params_begin = none ∨
        ((shell_command_param_split buf i).params_begin =
            some (blankTo buf (shell_command_param_split buf i).cmd_end) ∧
          buf[blankTo buf (shell_command_param_split buf i).cmd_end]? ≠ some ' ' ∧
          buf[blankTo buf (shell_command_param_split buf i).cmd_end]? ≠ some '\t')) := by
    by_cases h : blankTo buf i < buf.length
    · rw [split_of_lt buf i h]
      simp only [splitCore_cmd_end, splitCore_params_begin]
      have hi2 : seperTo buf (blankTo buf i) ≤ buf.length :=
        seperTo_le buf _ (Nat.le_of_lt h)
      set i2 := seperTo buf (blankTo buf i) with hi2def
      have hp := paramPhase_spec buf i2 hi2
      set P := paramPhase buf i2 with hPdef
      refine ⟨hp.2.2.1, ?_⟩
      rcases hq : P.1 with _ | pb
      · left
        rfl
      · right
        obtain ⟨hpbEq, _⟩ := hp.2.2.2.2 pb hq
        refine ⟨?_, (blankTo_stop buf i2).1, (blankTo_stop buf i2).2⟩
        rw [hpbEq]
    · rw [split_of_ge buf i h]
      have hnone : buf[blankTo buf i]? = none :=
        List.getElem?_eq_none (Nat.le_of_not_lt h)
      simp [hnone]
  refine ⟨h12.1, h12.2, ?_, ?_⟩
  · intro fuel j pe hj
    exact paramLoop_stop buf fuel j pe hj
  · intro fuel j pe hj
    have hstep : paramLoop buf (fuel + 1) j pe =
        if buf[j]? = some ' ' then
          paramLoop buf fuel (seperTo buf (blankTo buf j))
            (if buf[seperTo buf (blankTo buf j)]? = some ' ' then
              seperTo buf (blankTo buf j)
             else pe)
        else (j, pe) := rfl
    rw [hstep, if_pos hj]
    exact Nat.lt_of_lt_of_le (blankTo_pos buf j hj)
      (Nat.le_trans (le_seperTo buf _) (paramLoop_cursor_mono buf fuel _ _))

theorem C2_param_phase_amended_witness :
    paramLoop ("echo a\tb".toList) 5 6 6 = (6, 6) ∧
    2 < (paramLoop ("ab c".toList) 3 2 2).1 :=
  ⟨(C2_param_phase_amended ("echo a\tb".toList) 0).2.2.1 5 6 6 (by decide),
   (C2_param_phase_amended ("ab c".toList) 0).2.2.2 2 2 2 (by decide)⟩

/-- C6, counterexample: the claim says the command range is empty only when
the input from the resume point is empty or all blanks.  On the input "|" —
neither empty nor blank — the command is empty (the scan stops at once on
the operator character) and the call returns SOP_PIPE. -/
theorem C6_counterexample :
    (shell_command_param_split ['|'] 0).cmd_begin =
      (shell_command_param_split ['|'] 0).cmd_end ∧
    (shell_command_param_split ['|'] 0).oper = .SOP_PIPE ∧
    (['|'].all isBlank) = false ∧
    ['|'] ≠ ([] : List Char) := by
  decide

/-- C6, amended: the command range is the first token scanned and is empty
exactly when, after the blank skip, the cursor sits at end of input or on a
separator character (an operator or redirection byte); in particular it is
empty on empty or all-blank remainders, but also on inputs whose first
non-blank byte is an operator.  redirection_target is populated only when a
redirection operator was consumed. -/
theorem C6_command_first_amended :
    ∀ (buf : List Char) (i : Nat),
      (shell_command_param_split buf i).cmd_begin ≤
        (shell_command_param_split buf i).cmd_end ∧
      ((shell_command_param_split buf i).cmd_begin =
          (shell_command_param_split buf i).cmd_end ↔
        (buf.length ≤ (shell_command_param_split buf i).cmd_begin ∨
          isSeperAt buf (shell_command_param_split buf i).cmd_begin = true)) ∧
      ((buf.drop i).all isBlank = true →
        (shell_command_param_split buf i).cmd_begin =
          (shell_command_param_split buf i).cmd_end) ∧
      ((shell_command_param_split buf i).redir_begin = none ∨
        (shell_command_param_split buf i).sop_redir ≠ .SOP_REDIR_NONE) := by
  intro buf i
  by_cases h : blankTo buf i < buf.length
  · rw [split_of_lt buf i h]
    simp only [splitCore_cmd_begin, splitCore_cmd_end, splitCore_sop_redir,
      splitCore_redir_begin]
    refine ⟨le_seperTo buf _, ?_, ?_, ?_⟩
    · have hdrop := List.drop_eq_getElem_cons (l := buf) (n := blankTo buf i) h
      constructor
      · intro he
        have hcount : getSeperCount (buf.drop (blankTo buf i)) = 0 := by
          simp only [seperTo] at he
          omega
        rw [hdrop, getSeperCount_eq_zero] at hcount
        right
        simp only [isSeperAt, List.getElem?_eq_getElem h]
        exact hcount
      · intro hor
        rcases hor with hlen | hsep
        · omega
        · have hc : isSeper buf[blankTo buf i] = true := by
            simpa only [isSeperAt, List.getElem?_eq_getElem h] using hsep
          have hcount : getSeperCount (buf.drop (blankTo buf i)) = 0 := by
            rw [hdrop, getSeperCount_eq_zero]
            exact hc
          simp only [seperTo]
          omega
    · intro hall
      exfalso
      have hfull := eatBlankCount_all _ hall
      have hld : (buf.drop i).length = buf.length - i := List.length_drop i buf
      simp only [blankTo] at h
      omega
    · have hi2 : seperTo buf (blankTo buf i) ≤ buf.length :=
        seperTo_le buf _ (Nat.le_of_lt h)
      have hp := paramPhase_spec buf (seperTo buf (blankTo buf i)) hi2
      set P := paramPhase buf (seperTo buf (blankTo buf i)) with hPdef
      have hro := redirOp_spec buf P.2.2 hp.2.1
      set RO := redirOp buf P.2.2 with hROdef
      have hrt := redirTarget_spec buf RO.1 RO.2 hro.2.1
      set RT := redirTarget buf RO.1 RO.2 with hRTdef
      by_cases hr : RO.1 = .SOP_REDIR_NONE
      · left
        have hnot : ¬ (RT.1.isSome = true) := by
          rw [hrt.2.2.1]
          simp [hr]
        exact Option.not_isSome_iff_eq_none.mp hnot
      · right
        exact hr
  · rw [split_of_ge buf i h]
    simp [Nat.le_of_not_lt h]

theorem C6_command_first_amended_witness :
    (shell_command_param_split [' ', '\t'] 0).cmd_begin =
      (shell_command_param_split [' ', '\t'] 0).cmd_end :=
  (C6_command_first_amended [' ', '\t'] 0).2.2.1 (by decide)

/-- Quote mode agrees with the inner GET_CHAR scan of the source: it
consumes the characters GET_CHAR seeks through, the closing quote when one
exists (`if (*p) p++`), and then scans on in normal mode; with no closing
quote it consumes the whole rest. -/
theorem getSeperCountAux_true_eq (l : List Char) :
    getSeperCountAux true l =
      if getCharCount '\"' l < l.length
      then getCharCount '\"' l + 1 +
        getSeperCountAux false (l.drop (getCharCount '\"' l + 1))
      else l.length := by
  induction l with
  | nil => simp [getSeperCountAux, getCharCount]
  | cons c rest ih =>
    by_cases hc : (c == '\"') = true
    · have h01 : 0 < rest.length + 1 := Nat.succ_pos _
      simp [getSeperCountAux, getCharCount, hc, h01]
      omega
    · have hcf : (c == '\"') = false := by
        simpa using hc
      simp only [getSeperCountAux, getCharCount, hcf, Bool.false_eq_true,
        if_false, List.length_cons, List.drop_succ_cons]
      by_cases hlt : getCharCount '\"' rest < rest.length
      · rw [if_pos (by omega), ih, if_pos hlt]
        omega
      · rw [if_neg (by omega), ih, if_neg hlt]

/-- The one-character-at-a-time scanner equals the transliteration of
GET_SEPER with its nested GET_CHAR loop kept intact: the two renderings of
shell_token.c line 85 agree on every input. -/
theorem getSeperCountD_eq : ∀ l : List Char, getSeperCountD l = getSeperCount l := by
  have main : ∀ (n : Nat) (l : List Char), l.length ≤ n →
      getSeperCountD l = getSeperCount l := by
    intro n
    induction n with
    | zero =>
      intro l hl
      have hnil : l = [] := List.eq_nil_of_length_eq_zero (Nat.le_zero.mp hl)
      subst hnil
      simp [getSeperCountD, getSeperCount, getSeperCountAux]
    | succ n ih =>
      intro l hl
      match l with
      | [] => simp [getSeperCountD, getSeperCount, getSeperCountAux]
      | c :: rest =>
        have hrest : rest.length ≤ n := by
          simp only [List.length_cons] at hl
          omega
        by_cases hs : isSeper c = true
        · simp [getSeperCountD, getSeperCount, getSeperCountAux, hs]
        · have hsf : isSeper c = false := by
            simpa using hs
          by_cases hc : (c == '\"') = true
          · have hD : getSeperCountD (c :: rest) =
                if getCharCount '\"' rest < rest.length
                then 1 + (getCharCount '\"' rest + 1) +
                  getSeperCountD (rest.drop (getCharCount '\"' rest + 1))
                else 1 + getCharCount '\"' rest := by
              rw [getSeperCountD]
              rw [if_neg (by simp [hsf]), if_pos hc]
              by_cases hlt : getCharCount '\"' rest < rest.length
              · rw [dif_pos hlt, if_pos hlt]
              · rw [dif_neg hlt, if_neg hlt]
            have hA : getSeperCount (c :: rest) = getSeperCountAux true rest + 1 := by
              simp [getSeperCount, getSeperCountAux, hsf, hc]
            rw [hD, hA, getSeperCountAux_true_eq rest]
            by_cases hlt : getCharCount '\"' rest < rest.length
            · have hdl : (rest.drop (getCharCount '\"' rest + 1)).length ≤ n := by
                have := List.length_drop (getCharCount '\"' rest + 1) rest
                omega
              have hrec := ih (rest.drop (getCharCount '\"' rest + 1)) hdl
              rw [if_pos hlt, if_pos hlt, hrec]
              simp only [getSeperCount]
              omega
            · have hk : getCharCount '\"' rest = rest.length := by
                have := getCharCount_le '\"' rest
                omega
              rw [if_neg hlt, if_neg hlt]
              omega
          · have hcf : (c == '\"') = false := by
              simpa using hc
            have hD : getSeperCountD (c :: rest) = 1 + getSeperCountD rest := by
              rw [getSeperCountD]
              rw [if_neg (by simp [hsf]), if_neg (by simp [hcf])]
            have hA : getSeperCount (c :: rest) = getSeperCountAux false rest + 1 := by
              simp [getSeperCount, getSeperCountAux, hsf, hcf]
            rw [hD, hA, ih rest hrest]
            simp only [getSeperCount]
            omega
  intro l
  exact main l.length l (Nat.le_refl _)

/-- In quote mode (inside the GET_CHAR scan) with no closing quote anywhere
in the rest of the input, the scan consumes everything. -/
theorem getSeperCountAux_true_all (l : List Char) (h : '\"' ∉ l) :
    getSeperCountAux true l = l.length := by
  induction l with
  | nil => simp [getSeperCountAux]
  | cons c rest ih =>
    simp only [List.mem_cons, not_or] at h
    have hc : (c == '\"') = false := beq_eq_false_iff_ne.mpr (by
      intro hcc
      exact h.1 hcc.symm)
    simp [getSeperCountAux, hc, ih h.2]

/-- A scan that consumes an entire prefix can be split at the prefix
boundary, the mode at the boundary being determined by the parity of the
double quotes consumed: from normal mode an even number of quotes (all
matched pairs) returns to normal mode, from quote mode an odd number does.
This is the compositional fact behind the unterminated-quote behaviour. -/
theorem getSeperCountAux_append (l1 : List Char) :
    ∀ l2 : List Char,
      (getSeperCountAux false l1 = l1.length → l1.count '\"' % 2 = 0 →
        getSeperCountAux false (l1 ++ l2) =
          l1.length + getSeperCountAux false l2) ∧
      (getSeperCountAux true l1 = l1.length → l1.count '\"' % 2 = 1 →
        getSeperCountAux true (l1 ++ l2) =
          l1.length + getSeperCountAux false l2) := by
  induction l1 with
  | nil =>
    intro l2
    constructor
    · intro _ _
      simp
    · intro _ hodd
      simp [List.count_nil] at hodd
  | cons c l1 ih =>
    intro l2
    constructor
    · intro hall heven
      by_cases hc : (c == '\"') = true
      · have hsf : isSeper c = false := by
          have hceq : c = '\"' := by simpa using hc
          rw [hceq]
          decide
        have hall2 : getSeperCountAux true l1 = l1.length := by
          simp only [getSeperCountAux, hsf, hc, Bool.false_eq_true, if_false,
            if_true, List.length_cons] at hall
          omega
        have hodd : l1.count '\"' % 2 = 1 := by
          rw [List.count_cons, if_pos hc] at heven
          omega
        have hmain := (ih l2).2 hall2 hodd
        simp only [List.cons_append, getSeperCountAux, hsf, hc,
          Bool.false_eq_true, if_false, if_true, List.length_cons]
        simp only [List.append_eq] at hmain ⊢
        omega
      · by_cases hs : isSeper c = true
        · exfalso
          simp only [getSeperCountAux, hs, if_true, List.length_cons] at hall
          omega
        · have hsf : isSeper c = false := by simpa using hs
          have hcf : (c == '\"') = false := by simpa using hc
          have hall2 : getSeperCountAux false l1 = l1.length := by
            simp only [getSeperCountAux, hsf, hcf, Bool.false_eq_true,
              if_false, List.length_cons] at hall
            omega
          have heven2 : l1.count '\"' % 2 = 0 := by
            rw [List.count_cons, if_neg (by simp [hcf])] at heven
            omega
          have hmain := (ih l2).1 hall2 heven2
          simp only [List.cons_append, getSeperCountAux, hsf, hcf,
            Bool.false_eq_true, if_false, List.length_cons]
          simp only [List.append_eq] at hmain ⊢
          omega
    · intro hall hodd
      by_cases hc : (c == '\"') = true
      · have hall2 : getSeperCountAux false l1 = l1.length := by
          simp only [getSeperCountAux, hc, if_true, List.length_cons] at hall
          omega
        have heven : l1.count '\"' % 2 = 0 := by
          rw [List.count_cons, if_pos hc] at hodd
          omega
        have hmain := (ih l2).1 hall2 heven
        simp only [List.cons_append, getSeperCountAux, hc, if_true,
          List.length_cons]
        simp only [List.append_eq] at hmain ⊢
        omega
      · have hcf : (c == '\"') = false := by simpa using hc
        have hall2 : getSeperCountAux true l1 = l1.length := by
          simp only [getSeperCountAux, hcf, Bool.false_eq_true, if_false,
            List.length_cons] at hall
          omega
        have hodd2 : l1.count '\"' % 2 = 1 := by
          rw [List.count_cons, if_neg (by simp [hcf])] at hodd
          omega
        have hmain := (ih l2).2 hall2 hodd2
        simp only [List.cons_append, getSeperCountAux, hcf,
          Bool.false_eq_true, if_false, List.length_cons]
        simp only [List.append_eq] at hmain ⊢
        omega

/-- When the command scan runs to the end of the buffer, every later phase
sees the terminating NUL and the call returns the command range alone, with
the cursor at end of input. -/
theorem splitCore_at_end (buf : List Char) (i1 : Nat)
    (h2 : seperTo buf i1 = buf.length) :
    splitCore buf i1 =
      { cmd_begin := i1, cmd_end := buf.length, params_begin := none,
        params_end := none, sop_redir := .SOP_REDIR_NONE, redir_begin := none,
        redir_end := none, oper := .SOP_NONE, context := buf.length } := by
  have hnone : buf[buf.length]? = none := List.getElem?_eq_none (Nat.le_refl _)
  have hns : ¬ buf[buf.length]? = some ' ' := by
    simp [hnone]
  have hP : paramPhase buf buf.length = (none, none, buf.length) := by
    simp only [paramPhase]
    rw [if_neg hns]
  have hR : redirOp buf buf.length = (.SOP_REDIR_NONE, buf.length) := by
    simp [redirOp, hnone]
  have hT : redirTarget buf .SOP_REDIR_NONE buf.length =
      (none, none, buf.length) := by
    simp [redirTarget]
  have hC : controlOp buf buf.length = (.SOP_NONE, buf.length) :=
    controlOp_at_end buf _ (Nat.le_refl _)
  simp only [splitCore, h2, hP, hR, hT, hC]

/-- C3, counterexample: the claim says the first call on `echo "a;b>c" d`
returns params equal to the range of the text `"a;b>c" d` — offsets 5 to 14,
including the final word d.  The code stops params at offset 12: the word d
is followed by end of input, not by a space, so the loop at lines 113-119
never moves *params_end past the closing quote. -/
theorem C3_counterexample :
    sliceRange ("echo \"a;b>c\" d".toList) 5 14 = "\"a;b>c\" d".toList ∧
    (shell_command_param_split ("echo \"a;b>c\" d".toList) 0).params_begin =
      some 5 ∧
    (shell_command_param_split ("echo \"a;b>c\" d".toList) 0).params_end =
      some 12 ∧
    ¬ (shell_command_param_split ("echo \"a;b>c\" d".toList) 0).params_end =
      some 14 := by
  decide

/-- C3, amended: on the input `echo "a;b>c" d`, the first call returns
command = the range of "echo" and params = the range of the quoted token
alone (the final word d, followed by end of input rather than a space, is
left outside the params range), with the quoted `;` and `>` not treated as
operators, redirection kind SOP_REDIR_NONE and control operator SOP_NONE. -/
theorem C3_quote_transparency_amended :
    shell_command_param_split ("echo \"a;b>c\" d".toList) 0 =
      { cmd_begin := 0, cmd_end := 4, params_begin := some 5,
        params_end := some 12, sop_redir := .SOP_REDIR_NONE,
        redir_begin := none, redir_end := none,
        oper := .SOP_NONE, context := 14 } ∧
    sliceRange ("echo \"a;b>c\" d".toList) 0 4 = "echo".toList ∧
    sliceRange ("echo \"a;b>c\" d".toList) 5 12 = "\"a;b>c\"".toList := by
  decide

/-- C7: on "echo >> /dev/null && cat foo" the first call returns
command = "echo", empty params, SOP_REDIR_OUT_APPEND with target
"/dev/null" and operator SOP_AND; the second, cursor-only call resumes at
the returned context and returns command = "cat", params = "foo" and
operator SOP_NONE. -/
theorem C7_redirection_chain :
    shell_command_param_split ("echo >> /dev/null && cat foo".toList) 0 =
      { cmd_begin := 0, cmd_end := 4, params_begin := some 5,
        params_end := some 5, sop_redir := .SOP_REDIR_OUT_APPEND,
        redir_begin := some 8, redir_end := some 17,
        oper := .SOP_AND, context := 20 } ∧
    sliceRange ("echo >> /dev/null && cat foo".toList) 0 4 = "echo".toList ∧
    sliceRange ("echo >> /dev/null && cat foo".toList) 5 5 = ([] : List Char) ∧
    sliceRange ("echo >> /dev/null && cat foo".toList) 8 17 =
      "/dev/null".toList ∧
    shell_command_param_split ("echo >> /dev/null && cat foo".toList)
        (shell_command_param_split ("echo >> /dev/null && cat foo".toList)
          0).context =
      { cmd_begin := 21, cmd_end := 24, params_begin := some 25,
        params_end := some 28, sop_redir := .SOP_REDIR_NONE,
        redir_begin := none, redir_end := none,
        oper := .SOP_NONE, context := 28 } ∧
    sliceRange ("echo >> /dev/null && cat foo".toList) 21 24 = "cat".toList ∧
    sliceRange ("echo >> /dev/null && cat foo".toList) 25 28 = "foo".toList := by
  decide

/-- C8: driving "echo 0 > /a && echo 0 > /b && echo 1 > /c" to completion
yields exactly 3 statements whose control operators are SOP_AND, SOP_AND,
SOP_NONE in order; the two consumed separators are the "&&" just before
each returned context, the final context is the end of the buffer, and the
consumed ranges joined with the separators reconstruct the input. -/
theorem C8_chain_roundtrip :
    (drive ("echo 0 > /a && echo 0 > /b && echo 1 > /c".toList)
        ("echo 0 > /a && echo 0 > /b && echo 1 > /c".toList).length 0).map
        (fun r => r.oper) = [.SOP_AND, .SOP_AND, .SOP_NONE] ∧
    (drive ("echo 0 > /a && echo 0 > /b && echo 1 > /c".toList)
        ("echo 0 > /a && echo 0 > /b && echo 1 > /c".toList).length 0).length =
      3 ∧
    (shell_command_param_split
        ("echo 0 > /a && echo 0 > /b && echo 1 > /c".toList) 0).context = 14 ∧
    (shell_command_param_split
        ("echo 0 > /a && echo 0 > /b && echo 1 > /c".toList) 14).context = 29 ∧
    (shell_command_param_split
        ("echo 0 > /a && echo 0 > /b && echo 1 > /c".toList) 29).context =
      ("echo 0 > /a && echo 0 > /b && echo 1 > /c".toList).length ∧
    sliceRange ("echo 0 > /a && echo 0 > /b && echo 1 > /c".toList) 12 14 =
      "&&".toList ∧
    sliceRange ("echo 0 > /a && echo 0 > /b && echo 1 > /c".toList) 27 29 =
      "&&".toList ∧
    sliceRange ("echo 0 > /a && echo 0 > /b && echo 1 > /c".toList) 0 12 ++
        "&&".toList ++
        sliceRange ("echo 0 > /a && echo 0 > /b && echo 1 > /c".toList) 14 27 ++
        "&&".toList ++
        sliceRange ("echo 0 > /a && echo 0 > /b && echo 1 > /c".toList) 29
          ("echo 0 > /a && echo 0 > /b && echo 1 > /c".toList).length =
      "echo 0 > /a && echo 0 > /b && echo 1 > /c".toList := by
  decide

/-- C9: a double quote with no closing partner makes the separator scanner
consume every remaining byte to end of input — blanks and operator bytes
after the opening quote treated as ordinary token bytes — whatever token
the quote sits in.  Scanner level: any scan whose pre-quote prefix it
consumes whole in normal mode (matched quote pairs included, hence the
parity condition) runs to end of input once the unmatched quote is reached.
Call level: a command token scanned to end of input yields a well-formed
statement whose command range reaches the buffer end with everything else
empty; a params token scanned to end of input (lines 110-112) yields a
well-formed statement whose params range reaches the buffer end with no
redirection and no operator; and a redirection-target scan that reaches end
of input yields the target range up to the buffer end.  In every case the
cursor lands at the end of the buffer and no error is signalled. -/
theorem C9_unterminated_quote :
    (∀ l1 l2 : List Char,
        getSeperCountAux false l1 = l1.length →
        l1.count '\"' % 2 = 0 →
        '\"' ∉ l2 →
        getSeperCount (l1 ++ '\"' :: l2) = (l1 ++ '\"' :: l2).length) ∧
    (∀ (buf : List Char) (i : Nat),
        blankTo buf i < buf.length →
        getSeperCount (buf.drop (blankTo buf i)) =
          buf.length - blankTo buf i →
        shell_command_param_split buf i =
          { cmd_begin := blankTo buf i, cmd_end := buf.length,
            params_begin := none, params_end := none,
            sop_redir := .SOP_REDIR_NONE, redir_begin := none,
            redir_end := none, oper := .SOP_NONE, context := buf.length }) ∧
    (∀ (buf : List Char) (i : Nat),
        blankTo buf i < buf.length →
        buf[(shell_command_param_split buf i).cmd_end]? = some ' ' →
        seperTo buf
            (blankTo buf (shell_command_param_split buf i).cmd_end) =
          buf.length →
        (shell_command_param_split buf i).params_end = some buf.length ∧
        (shell_command_param_split buf i).sop_redir = .SOP_REDIR_NONE ∧
        (shell_command_param_split buf i).oper = .SOP_NONE ∧
        (shell_command_param_split buf i).context = buf.length) ∧
    (∀ (buf : List Char) (r : shell_redir) (i : Nat),
        r ≠ .SOP_REDIR_NONE → i < buf.length →
        seperTo buf (blankTo buf i) = buf.length →
        redirTarget buf r i =
          (some (blankTo buf i), some buf.length, buf.length)) := by
  refine ⟨?_, ?_, ?_, ?_⟩
  · intro l1 l2 hall heven hnot
    have hsplit := (getSeperCountAux_append l1 ('\"' :: l2)).1 hall heven
    have hq : isSeper '\"' = false := by decide
    simp only [getSeperCount] at hsplit ⊢
    rw [hsplit]
    simp [getSeperCountAux, hq, getSeperCountAux_true_all l2 hnot]
  · intro buf i hlt hcount
    rw [split_of_lt buf i hlt]
    have h2 : seperTo buf (blankTo buf i) = buf.length := by
      simp only [seperTo]
      omega
    rw [splitCore_at_end buf _ h2]
  · intro buf i hlt hsp hscan
    rw [split_of_lt buf i hlt] at hsp hscan ⊢
    simp only [splitCore_cmd_end] at hsp hscan
    simp only [splitCore_cmd_end, splitCore_params_end, splitCore_sop_redir,
      splitCore_oper, splitCore_context]
    have hP := paramPhase_to_end buf (seperTo buf (blankTo buf i)) hsp hscan
    rw [hP]
    have hR := redirOp_at_end buf buf.length (Nat.le_refl _)
    rw [hR]
    have hT : redirTarget buf .SOP_REDIR_NONE buf.length =
        (none, none, buf.length) := by
      simp [redirTarget]
    rw [hT, controlOp_at_end buf buf.length (Nat.le_refl _)]
    exact ⟨rfl, rfl, rfl, rfl⟩
  · intro buf r i hr hi hscan
    by_cases hlt : blankTo buf i < buf.length
    · have hRT : redirTarget buf r i =
          (some (blankTo buf i), some (seperTo buf (blankTo buf i)),
           blankTo buf (seperTo buf (blankTo buf i))) := by
        simp only [redirTarget]
        rw [if_pos ⟨hr, hi⟩, if_pos hlt]
      rw [hRT, hscan, blankTo_eq_self buf buf.length (Nat.le_refl _)]
    · have hj : blankTo buf i = buf.length := by
        have := seperTo_eq_self buf (blankTo buf i) (Nat.le_of_not_lt hlt)
        omega
      have hRT : redirTarget buf r i =
          (some (blankTo buf i), some (blankTo buf i), blankTo buf i) := by
        simp only [redirTarget]
        rw [if_pos ⟨hr, hi⟩, if_neg hlt]
      rw [hRT, hj]

theorem C9_unterminated_quote_witness :
    getSeperCount ("\"q\"x".toList ++ '\"' :: "a b;|".toList) =
      ("\"q\"x".toList ++ '\"' :: "a b;|".toList).length ∧
    shell_command_param_split ("ec\"a b;|".toList) 0 =
      { cmd_begin := 0, cmd_end := ("ec\"a b;|".toList).length,
        params_begin := none, params_end := none,
        sop_redir := .SOP_REDIR_NONE, redir_begin := none,
        redir_end := none, oper := .SOP_NONE,
        context := ("ec\"a b;|".toList).length } ∧
    ((shell_command_param_split ("echo \"a b".toList) 0).params_end =
        some ("echo \"a b".toList).length ∧
      (shell_command_param_split ("echo \"a b".toList) 0).sop_redir =
        .SOP_REDIR_NONE ∧
      (shell_command_param_split ("echo \"a b".toList) 0).oper = .SOP_NONE ∧
      (shell_command_param_split ("echo \"a b".toList) 0).context =
        ("echo \"a b".toList).length) ∧
    redirTarget (" \"t u".toList) .SOP_REDIR_OUT 0 =
      (some 1, some (" \"t u".toList).length, (" \"t u".toList).length) :=
  ⟨C9_unterminated_quote.1 ("\"q\"x".toList) ("a b;|".toList)
     (by decide) (by decide) (by decide),
   C9_unterminated_quote.2.1 ("ec\"a b;|".toList) 0 (by decide) (by decide),
   C9_unterminated_quote.2.2.1 ("echo \"a b".toList) 0
     (by decide) (by decide) (by decide),
   C9_unterminated_quote.2.2.2 (" \"t u".toList) .SOP_REDIR_OUT 0
     (by decide) (by decide) (by decide)⟩

/-- C10, counterexample: the claim says params.end remains at the end of
the last word that was directly followed by a space.  On "echo a b\tc " the
word c (offsets 9 to 10) is directly followed by a space, yet params ends
at offset 6 (the end of a): the word b is terminated by a tab, which both
fails the space test of line 116 and stops the loop of line 113, so the
scan never reaches c at all. -/
theorem C10_counterexample :
    (shell_command_param_split ("echo a b\tc ".toList) 0).params_begin =
      some 5 ∧
    (shell_command_param_split ("echo a b\tc ".toList) 0).params_end =
      some 6 ∧
    sliceRange ("echo a b\tc ".toList) 9 10 = ['c'] ∧
    ("echo a b\tc ".toList)[10]? = some ' ' ∧
    ¬ (shell_command_param_split ("echo a b\tc ".toList) 0).params_end =
      some 10 := by
  decide

/-- C10, amended: the params range always covers at least the first scanned
word, whatever terminates it; past that, params.end can only sit at an
offset whose byte is a space — so a later word terminated by an operator
byte, a tab, or end of input never becomes params.end, and once a word is
terminated by anything other than a space the loop stops, excluding even
later space-terminated words. -/
theorem C10_param_word_exclusion_amended :
    ∀ (buf : List Char) (i : Nat) (pb pe : Nat),
      (shell_command_param_split buf i).params_begin = some pb →
      (shell_command_param_split buf i).params_end = some pe →
      seperTo buf pb ≤ pe ∧
      (pe = seperTo buf pb ∨ buf[pe]? = some ' ') := by
  intro buf i pb pe hpb hpe
  by_cases h : blankTo buf i < buf.length
  · rw [split_of_lt buf i h] at hpb hpe
    simp only [splitCore_params_begin, splitCore_params_end] at hpb hpe
    have hi2 : seperTo buf (blankTo buf i) ≤ buf.length :=
      seperTo_le buf _ (Nat.le_of_lt h)
    have hp := paramPhase_spec buf (seperTo buf (blankTo buf i)) hi2
    obtain ⟨hpbEq, pe2, hpe2, hk, _, hdisj⟩ := hp.2.2.2.2 pb hpb
    rw [hpe2] at hpe
    have hpe3 : pe2 = pe := by
      simpa using hpe
    rw [hpe3] at hk hdisj
    exact ⟨hk, hdisj⟩
  · rw [split_of_ge buf i h] at hpb
    exact absurd hpb (by simp)

theorem C10_param_word_exclusion_witness :
    seperTo ("echo a b c".toList) 5 ≤ 8 ∧
    (8 = seperTo ("echo a b c".toList) 5 ∨
      ("echo a b c".toList)[8]? = some ' ') :=
  C10_param_word_exclusion_amended ("echo a b c".toList) 0 5 8
    (by decide) (by decide)

